import Mathlib

/-!
# s4m3: the interaction model of `main.go`

A shallow embedding of the game state (`model`), of the key handler
`model.Update`, of `initialModel` and of the published web model
(`setWebModel` / `getWebModel`), followed by the properties of the cursor, the
score and the published snapshot.

Go's `int` is taken at 64 bits; `++`, `--`, `+=` and `-` wrap around, which
`wrapInt` makes explicit.  The `Board` type, `Board.Hit` and `generateBoard`
are declared outside `main.go`; the functions of `main.go` take them as the
parameter `BoardOps`.
-/

namespace S4m3

/-! ## Go integers -/

/-- Smallest value of Go's `int` (64 bits). -/
def minInt : Int := -9223372036854775808

/-- Largest value of Go's `int` (64 bits). -/
def maxInt : Int := 9223372036854775807

/-- Result of an `int` operation whose mathematical value is `x`: two's
complement wrap-around into `[minInt, maxInt]`. -/
def wrapInt (x : Int) : Int :=
  (x + 9223372036854775808) % 18446744073709551616 - 9223372036854775808

/-- Being a value of Go's `int`. -/
def isInt (x : Int) : Prop := minInt ≤ x ∧ x ≤ maxInt

instance (x : Int) : Decidable (isInt x) :=
  inferInstanceAs (Decidable (minInt ≤ x ∧ x ≤ maxInt))

/-! ## Data model of `main.go` -/

/-- Catalog entry, with the two fields `defaultConfig` sets. -/
structure TileType where
  Sign : String
  Color : String
deriving DecidableEq

/-- The `Config` struct. -/
structure Config where
  TileTypes : List TileType
  Seed : Int
  Width : Int
  Height : Int
  Addr : String
deriving DecidableEq

/-- The `defaultConfig` variable. -/
def defaultConfig : Config :=
  { TileTypes := [⟨"*", "#ffff00"⟩, ⟨"X", "#88ff00"⟩, ⟨"O", "#0088ff"⟩]
    Seed := 0
    Width := 20
    Height := 20
    Addr := "" }

/-- Zero value of `Config`. -/
def zeroConfig : Config :=
  { TileTypes := [], Seed := 0, Width := 0, Height := 0, Addr := "" }

/-- What `main.go` uses of the board file: the generator, the `Hit` method
(its `int` result and the board after the call) and the zero value of the
`Board` type. -/
structure BoardOps (β : Type) where
  generateBoard : Config → β
  Hit : β → Int → Int → Int × β
  zero : β

/-- The `model` struct. -/
structure model (β : Type) where
  config : Config
  board : β
  gameOver : Bool
  cx : Int
  cy : Int
  points : Int
deriving DecidableEq

/-- Zero value of `model`, the initial content of the variable `_model`. -/
def zeroModel {β : Type} (ops : BoardOps β) : model β :=
  { config := zeroConfig, board := ops.zero, gameOver := false, cx := 0, cy := 0, points := 0 }

/-! ## The published web model -/

/-- Package-level state: the variable `_model` (the mutex `modelMu` guards it
and holds no data). -/
structure Globals (β : Type) where
  webModel : model β
deriving DecidableEq

/-- Package-level state at program start. -/
def initGlobals {β : Type} (ops : BoardOps β) : Globals β :=
  { webModel := zeroModel ops }

/-- The function `setWebModel`: `_model = m`. -/
def setWebModel {β : Type} (_g : Globals β) (m : model β) : Globals β :=
  { webModel := m }

/-- The function `getWebModel`: `return _model`. -/
def getWebModel {β : Type} (g : Globals β) : model β :=
  g.webModel

/-! ## Messages and commands -/

/-- A `tea.Msg` as `Update` tells them apart: a key message, known by its
`String()`, a mouse message, or anything else. -/
inductive Msg where
  | KeyMsg (s : String)
  | MouseMsg (text : String)
  | other
deriving DecidableEq

/-- A `tea.Cmd` as `Update` and `Init` return them: `nil` or `tea.Quit`. -/
inductive Cmd where
  | nil
  | Quit
deriving DecidableEq

/-- What one call of `Update` yields: the returned model and command, and the
arguments of the call to `board.Hit` it made, when it made one. -/
structure UpdateResult (β : Type) where
  next : model β
  cmd : Cmd
  hitCall : Option (Int × Int)

/-! ## `Init`, `Update`, `initialModel` -/

/-- The method `model.Init`: publishes the model, returns `nil`. -/
def Init {β : Type} (m : model β) (g : Globals β) : Globals β × Cmd :=
  (setWebModel g m, Cmd.nil)

/-- Lines 93 to 104 of `Update`: the four `if`s that bring the cursor back. -/
def clampCursor {β : Type} (m : model β) : model β :=
  let m1 := if m.cx < 0 then { m with cx := 0 } else m
  let m2 := if m1.cx ≥ m1.config.Width then { m1 with cx := wrapInt (m1.config.Width - 1) } else m1
  let m3 := if m2.cy < 0 then { m2 with cy := 0 } else m2
  let m4 := if m3.cy ≥ m3.config.Height then { m3 with cy := wrapInt (m3.config.Height - 1) } else m3
  m4

/-- The method `model.Update`.  The `fmt.Println` of a mouse message writes to
the terminal only and leaves no trace in the result. -/
def Update {β : Type} (ops : BoardOps β) (m : model β) (msg : Msg) : UpdateResult β :=
  match msg with
  | Msg.KeyMsg s =>
    if s = "ctrl+c" ∨ s = "q" then
      { next := m, cmd := Cmd.Quit, hitCall := none }
    else if s = " " then
      let r := ops.Hit m.board m.cx m.cy
      { next := clampCursor { m with board := r.2, points := wrapInt (m.points + r.1) }
        cmd := Cmd.nil
        hitCall := some (m.cx, m.cy) }
    else if s = "up" then
      { next := clampCursor { m with cy := wrapInt (m.cy - 1) }, cmd := Cmd.nil, hitCall := none }
    else if s = "down" then
      { next := clampCursor { m with cy := wrapInt (m.cy + 1) }, cmd := Cmd.nil, hitCall := none }
    else if s = "left" then
      { next := clampCursor { m with cx := wrapInt (m.cx - 1) }, cmd := Cmd.nil, hitCall := none }
    else if s = "right" then
      { next := clampCursor { m with cx := wrapInt (m.cx + 1) }, cmd := Cmd.nil, hitCall := none }
    else
      { next := clampCursor m, cmd := Cmd.nil, hitCall := none }
  | Msg.MouseMsg _ => { next := clampCursor m, cmd := Cmd.nil, hitCall := none }
  | Msg.other => { next := clampCursor m, cmd := Cmd.nil, hitCall := none }

/-- The function `initialModel`. -/
def initialModel {β : Type} (ops : BoardOps β) (cfg : Config) : model β :=
  { config := cfg, board := ops.generateBoard cfg, gameOver := false, cx := 0, cy := 0, points := 0 }

/-- The model after `Update` has handled the messages `msgs` in turn. -/
def updates {β : Type} (ops : BoardOps β) (m : model β) (msgs : List Msg) : model β :=
  msgs.foldl (fun s msg => (Update ops s msg).next) m

/-- The package-level state after the successive calls `setWebModel ms[0]`,
`setWebModel ms[1]`, ... -/
def publishAll {β : Type} (g : Globals β) (ms : List (model β)) : Globals β :=
  ms.foldl setWebModel g

/-- The event loop of the terminal framework as `main` starts it on a model:
`Init` once, then `Update` on each message the loop hands to it, its result
being the model of the next round.  `msgs` are the messages handled before the
loop ends; a `tea.Quit` command ends it only once the framework has run it, so
messages queued behind a quit key are still handled.  Yields the package-level
state and the last model. -/
def Start {β : Type} (ops : BoardOps β) (g : Globals β) (m : model β) (msgs : List Msg) :
    Globals β × model β :=
  ((Init m g).1, updates ops m msgs)

/-- The clamp of the specification: `v` brought into `[lo, hi]`. -/
def specClamp (v lo hi : Int) : Int :=
  if v < lo then lo else if v > hi then hi else v

/-! ## The board, after the specification

`Board`, `Board.Hit` and `generateBoard` are declared outside `main.go`.
Where a property depends on what `Hit` awards, the board of the specification
(sections 3, 4.1 and 4.2) stands in for them. -/

/-- Modelled from the spec: a catalog entry with its point value (section 9:
the lookup table from catalog index to the record glyph, color, pointValue).
The file that declares the point value is missing, and the specification
states neither its sign nor its size: it is an integer. -/
structure TileRecord where
  glyph : String
  color : String
  pointValue : Int
deriving DecidableEq

/-- Modelled from the spec: a `Cell` (section 3), a reference into the catalog
or empty, and the revealed flag.  The declaration of the cell type is missing
from the sources. -/
structure Cell where
  tileTypeRef : Option Nat
  revealed : Bool
deriving DecidableEq

/-- Modelled from the spec: the `Board` (section 3), whose declaration is
missing from the sources: the dimensions, the cells in row-major order (cell
`(x, y)` at index `y * width + x`) and the catalog the cells refer to. -/
structure Board where
  width : Int
  height : Int
  cells : List Cell
  catalog : List TileRecord
deriving DecidableEq

/-- Modelled from the spec: the failures of the missing board operations
(section 7). -/
inductive BoardError where
  | InvalidDimension
  | OutOfBounds
deriving DecidableEq

/-- Modelled from the spec: what sections 4.1 and 9 leave open in the missing
board file, the seed-deterministic assignment of a tile type (or none) to the cell
`(x, y)`, given the seed and the size of the catalog, and the point value of
the catalog entry at an index. -/
structure Policy where
  assign : Int → Nat → Nat → Nat → Option Nat
  pointValue : Nat → TileType → Int

/-- Modelled from the spec: the award of a cell, "the tile type's point value,
or 0 for an empty cell" (section 4.2); the scoring code is missing from the
sources. -/
def cellValue (catalog : List TileRecord) (c : Cell) : Int :=
  match c.tileTypeRef with
  | none => 0
  | some k =>
    match catalog[k]? with
    | some t => t.pointValue
    | none => 0

/-- Modelled from the spec: `Hit(x, y)` of section 4.2, the missing method
`Board.Hit`.  Out of bounds it fails with `OutOfBounds`; on a revealed cell it
returns 0 and changes nothing; otherwise it marks the cell revealed and returns
its award. -/
def Board.Hit (b : Board) (x y : Int) : Except BoardError (Int × Board) :=
  if x < 0 ∨ x ≥ b.width ∨ y < 0 ∨ y ≥ b.height then
    Except.error BoardError.OutOfBounds
  else
    let i := (y * b.width + x).toNat
    match b.cells[i]? with
    | none => Except.error BoardError.OutOfBounds
    | some c =>
      if c.revealed then Except.ok (0, b)
      else Except.ok (cellValue b.catalog c, { b with cells := b.cells.set i { c with revealed := true } })

/-- Modelled from the spec: `generate(width, height, catalog, seed)` of section
4.1, the missing function `generateBoard`.  It fails with `InvalidDimension`
unless both dimensions are positive, and otherwise returns a board whose cells
are all unrevealed, their tile types fixed by the seed through the policy. -/
def generate (p : Policy) (width height : Int) (catalog : List TileType) (seed : Int) :
    Except BoardError Board :=
  if width ≤ 0 ∨ height ≤ 0 then Except.error BoardError.InvalidDimension
  else
    Except.ok
      { width := width
        height := height
        cells := (List.range (height * width).toNat).map
          (fun i => { tileTypeRef := p.assign seed catalog.length (i % width.toNat) (i / width.toNat)
                      revealed := false })
        catalog := (List.range catalog.length).zipWith
          (fun k t => { glyph := t.Sign, color := t.Color, pointValue := p.pointValue k t }) catalog }

/-- Modelled from the spec: a board without cells, the zero value of the
missing `Board` type. -/
def emptyBoard : Board :=
  { width := 0, height := 0, cells := [], catalog := [] }

/-- Modelled from the spec: the board of the specification behind the calls
`main.go` makes to the missing board file.  `generateBoard` and `Hit` return a
bare board and a bare `int` there, so a failure of the specification shows as
the board without cells, respectively as the award 0 on an unchanged board
("leaves Board and score unchanged", section 8). -/
def specOps (p : Policy) : BoardOps Board :=
  { generateBoard := fun cfg =>
      match generate p cfg.Width cfg.Height cfg.TileTypes cfg.Seed with
      | Except.ok b => b
      | Except.error _ => emptyBoard
    Hit := fun b x y =>
      match b.Hit x y with
      | Except.ok r => r
      | Except.error _ => (0, b)
    zero := emptyBoard }

/-- A policy for examples: tile types in rotation along the diagonals, starting
at the seed, and `k + 1` points for the catalog entry at index `k`. -/
def samplePolicy : Policy :=
  { assign := fun seed n x y => if n = 0 then none else some ((seed.toNat + x + y) % n)
    pointValue := fun k _ => k + 1 }

/-- A policy whose every cell holds a tile worth the largest Go `int`. -/
def overflowPolicy : Policy :=
  { assign := fun _ _ _ _ => some 0
    pointValue := fun _ _ => 9223372036854775807 }

/-- A policy whose every cell holds a tile worth -1. -/
def negativePolicy : Policy :=
  { assign := fun _ _ _ _ => some 0
    pointValue := fun _ _ => -1 }

/-- The board operations of the specification under the example policy. -/
def sampleOps : BoardOps Board := specOps samplePolicy

/-- A 3 by 2 configuration over the default catalog. -/
def smallConfig : Config :=
  { defaultConfig with Width := 3, Height := 2 }

/-- The cursor lies on the board of the configuration `cfg`. -/
def inBounds {β : Type} (cfg : Config) (m : model β) : Prop :=
  0 ≤ m.cx ∧ m.cx < cfg.Width ∧ 0 ≤ m.cy ∧ m.cy < cfg.Height

/-- The four movement keys with the step `(dx, dy)` each stands for. -/
def moves : List (String × Int × Int) :=
  [("up", 0, -1), ("down", 0, 1), ("left", -1, 0), ("right", 1, 0)]

/-- A run for examples: it pushes against the edges, hits (once twice on the
same cell), and carries a quit key, an unknown key, a mouse message and a
message of another kind. -/
def sampleRun : List Msg :=
  [Msg.KeyMsg "left", Msg.KeyMsg "up", Msg.KeyMsg " ", Msg.KeyMsg " ", Msg.KeyMsg "right",
   Msg.KeyMsg "right", Msg.KeyMsg "right", Msg.KeyMsg " ", Msg.KeyMsg "q", Msg.KeyMsg "x",
   Msg.MouseMsg "click", Msg.other, Msg.KeyMsg "down", Msg.KeyMsg "down", Msg.KeyMsg " "]

/-- Along the run `msgs` from the model `m`, every award that `Hit` returns to
`Update` is non-negative and its sum with the points is a Go `int`. -/
def awardsFit {β : Type} (ops : BoardOps β) (m : model β) : List Msg → Bool
  | [] => true
  | msg :: rest =>
    (if msg = Msg.KeyMsg " " then
      decide (0 ≤ (ops.Hit m.board m.cx m.cy).1) &&
        decide (isInt (m.points + (ops.Hit m.board m.cx m.cy).1))
    else true) &&
    awardsFit ops (Update ops m msg).next rest

/-! ## Go integers: lemmas -/

theorem wrapInt_of_isInt {x : Int} (h : isInt x) : wrapInt x = x := by
  unfold isInt minInt maxInt at h
  unfold wrapInt
  omega

theorem isInt_wrapInt (x : Int) : isInt (wrapInt x) := by
  unfold isInt minInt maxInt wrapInt
  omega

/-! ## The clamp at the end of `Update` -/

@[simp] theorem clampCursor_config {β : Type} (m : model β) :
    (clampCursor m).config = m.config := by
  unfold clampCursor
  dsimp only
  split_ifs <;> rfl

@[simp] theorem clampCursor_board {β : Type} (m : model β) :
    (clampCursor m).board = m.board := by
  unfold clampCursor
  dsimp only
  split_ifs <;> rfl

@[simp] theorem clampCursor_points {β : Type} (m : model β) :
    (clampCursor m).points = m.points := by
  unfold clampCursor
  dsimp only
  split_ifs <;> rfl

@[simp] theorem clampCursor_gameOver {β : Type} (m : model β) :
    (clampCursor m).gameOver = m.gameOver := by
  unfold clampCursor
  dsimp only
  split_ifs <;> rfl

theorem clampCursor_cx {β : Type} (m : model β) :
    (clampCursor m).cx =
      if (if m.cx < 0 then 0 else m.cx) ≥ m.config.Width then wrapInt (m.config.Width - 1)
      else (if m.cx < 0 then 0 else m.cx) := by
  unfold clampCursor
  dsimp only
  split_ifs <;> simp_all

theorem clampCursor_cy {β : Type} (m : model β) :
    (clampCursor m).cy =
      if (if m.cy < 0 then 0 else m.cy) ≥ m.config.Height then wrapInt (m.config.Height - 1)
      else (if m.cy < 0 then 0 else m.cy) := by
  unfold clampCursor
  dsimp only
  split_ifs <;> simp_all

/-- On a board of positive width that is a Go `int`, the clamp of the code is
the clamp of the specification on the x axis. -/
theorem clampCursor_cx_spec {β : Type} (m : model β) (hW : 0 < m.config.Width)
    (hWi : isInt m.config.Width) :
    (clampCursor m).cx = specClamp m.cx 0 (m.config.Width - 1) := by
  have hw : wrapInt (m.config.Width - 1) = m.config.Width - 1 := by
    apply wrapInt_of_isInt
    unfold isInt minInt maxInt at *
    omega
  rw [clampCursor_cx, hw]
  unfold specClamp
  split_ifs <;> omega

/-- The same on the y axis. -/
theorem clampCursor_cy_spec {β : Type} (m : model β) (hH : 0 < m.config.Height)
    (hHi : isInt m.config.Height) :
    (clampCursor m).cy = specClamp m.cy 0 (m.config.Height - 1) := by
  have hw : wrapInt (m.config.Height - 1) = m.config.Height - 1 := by
    apply wrapInt_of_isInt
    unfold isInt minInt maxInt at *
    omega
  rw [clampCursor_cy, hw]
  unfold specClamp
  split_ifs <;> omega

theorem specClamp_bounds (v hi : Int) (h : 0 ≤ hi) :
    0 ≤ specClamp v 0 hi ∧ specClamp v 0 hi ≤ hi := by
  unfold specClamp
  split_ifs <;> omega

theorem specClamp_id (v hi : Int) (h0 : 0 ≤ v) (h1 : v ≤ hi) : specClamp v 0 hi = v := by
  unfold specClamp
  split_ifs <;> omega

/-- After the clamp the cursor lies on the board. -/
theorem clampCursor_inBounds {β : Type} (m : model β) (hW : 0 < m.config.Width)
    (hH : 0 < m.config.Height) (hWi : isInt m.config.Width) (hHi : isInt m.config.Height) :
    inBounds m.config (clampCursor m) := by
  unfold inBounds
  rw [clampCursor_cx_spec m hW hWi, clampCursor_cy_spec m hH hHi]
  have hx := specClamp_bounds m.cx (m.config.Width - 1) (by omega)
  have hy := specClamp_bounds m.cy (m.config.Height - 1) (by omega)
  omega

/-- The clamp leaves a cursor that lies on the board where it is. -/
theorem clampCursor_of_inBounds {β : Type} (m : model β) (h : inBounds m.config m) :
    (clampCursor m).cx = m.cx ∧ (clampCursor m).cy = m.cy := by
  unfold inBounds at h
  rw [clampCursor_cx, clampCursor_cy]
  constructor <;> split_ifs <;> omega

/-! ## One call of `Update` -/

@[simp] theorem Update_config {β : Type} (ops : BoardOps β) (m : model β) (msg : Msg) :
    (Update ops m msg).next.config = m.config := by
  unfold Update
  split
  · split_ifs <;> simp
  · simp
  · simp

@[simp] theorem Update_gameOver {β : Type} (ops : BoardOps β) (m : model β) (msg : Msg) :
    (Update ops m msg).next.gameOver = m.gameOver := by
  unfold Update
  split
  · split_ifs <;> simp
  · simp
  · simp

/-- A call of `Update` that does not quit ends with the clamp, and a call that
quits returns its model: either way a cursor on the board stays on the board. -/
theorem Update_inBounds {β : Type} (ops : BoardOps β) (m : model β) (msg : Msg)
    (hW : 0 < m.config.Width) (hH : 0 < m.config.Height)
    (hWi : isInt m.config.Width) (hHi : isInt m.config.Height)
    (h : inBounds m.config m) : inBounds m.config (Update ops m msg).next := by
  unfold Update
  split
  · split_ifs
    · exact h
    all_goals exact clampCursor_inBounds _ hW hH hWi hHi
  · exact clampCursor_inBounds _ hW hH hWi hHi
  · exact clampCursor_inBounds _ hW hH hWi hHi

/-- The only call of `Hit` that `Update` makes is at the cursor of its model. -/
theorem Update_hitCall {β : Type} (ops : BoardOps β) (m : model β) (msg : Msg) (x y : Int)
    (h : (Update ops m msg).hitCall = some (x, y)) : x = m.cx ∧ y = m.cy := by
  unfold Update at h
  split at h
  · split_ifs at h
    all_goals simp at h
    exact ⟨h.1.symm, h.2.symm⟩
  · simp at h
  · simp at h

/-! ## Runs of `Update` from `initialModel` -/

theorem updates_nil {β : Type} (ops : BoardOps β) (m : model β) : updates ops m [] = m := rfl

theorem updates_append {β : Type} (ops : BoardOps β) (m : model β) (msgs : List Msg) (msg : Msg) :
    updates ops m (msgs ++ [msg]) = (Update ops (updates ops m msgs) msg).next := by
  simp [updates, List.foldl_append]

@[simp] theorem updates_config {β : Type} (ops : BoardOps β) (m : model β) (msgs : List Msg) :
    (updates ops m msgs).config = m.config := by
  induction msgs using List.reverseRecOn with
  | nil => rfl
  | append_singleton msgs msg ih => rw [updates_append, Update_config, ih]

@[simp] theorem updates_gameOver {β : Type} (ops : BoardOps β) (m : model β) (msgs : List Msg) :
    (updates ops m msgs).gameOver = m.gameOver := by
  induction msgs using List.reverseRecOn with
  | nil => rfl
  | append_singleton msgs msg ih => rw [updates_append, Update_gameOver, ih]

/-- The cursor of every model reached from one with its cursor on the board
lies on the board. -/
theorem updates_inBounds {β : Type} (ops : BoardOps β) (m : model β) (msgs : List Msg)
    (hW : 0 < m.config.Width) (hH : 0 < m.config.Height)
    (hWi : isInt m.config.Width) (hHi : isInt m.config.Height)
    (h : inBounds m.config m) : inBounds m.config (updates ops m msgs) := by
  induction msgs using List.reverseRecOn with
  | nil => exact h
  | append_singleton msgs msg ih =>
    rw [updates_append]
    have hc := updates_config ops m msgs
    have := Update_inBounds ops (updates ops m msgs) msg (by rw [hc]; exact hW)
      (by rw [hc]; exact hH) (by rw [hc]; exact hWi) (by rw [hc]; exact hHi) (by rw [hc]; exact ih)
    rw [hc] at this
    exact this

theorem initialModel_inBounds {β : Type} (ops : BoardOps β) (cfg : Config)
    (hW : 0 < cfg.Width) (hH : 0 < cfg.Height) : inBounds cfg (initialModel ops cfg) := by
  unfold inBounds initialModel
  simp only
  omega

/-! ## The claims on the cursor -/

/-- Claim C1, boundary invariant: for every configuration whose `Width` and `Height`
are positive (Go `int`s), every model reached from `initialModel cfg` by any
finite sequence of `Update` calls, whatever the messages, has
`0 ≤ cx < Width` and `0 ≤ cy < Height`. -/
theorem cursor_boundary_invariant {β : Type} (ops : BoardOps β) (cfg : Config)
    (hW : 0 < cfg.Width) (hH : 0 < cfg.Height) (hWi : isInt cfg.Width) (hHi : isInt cfg.Height)
    (msgs : List Msg) :
    0 ≤ (updates ops (initialModel ops cfg) msgs).cx ∧
    (updates ops (initialModel ops cfg) msgs).cx < cfg.Width ∧
    0 ≤ (updates ops (initialModel ops cfg) msgs).cy ∧
    (updates ops (initialModel ops cfg) msgs).cy < cfg.Height :=
  updates_inBounds ops (initialModel ops cfg) msgs hW hH hWi hHi
    (initialModel_inBounds ops cfg hW hH)

/-- The boundary invariant on the 3 by 2 board, after the example run. -/
theorem cursor_boundary_invariant_witness :
    (0 < smallConfig.Width ∧ 0 < smallConfig.Height ∧ isInt smallConfig.Width ∧
      isInt smallConfig.Height) ∧
    (0 ≤ (updates sampleOps (initialModel sampleOps smallConfig) sampleRun).cx ∧
     (updates sampleOps (initialModel sampleOps smallConfig) sampleRun).cx < smallConfig.Width ∧
     0 ≤ (updates sampleOps (initialModel sampleOps smallConfig) sampleRun).cy ∧
     (updates sampleOps (initialModel sampleOps smallConfig) sampleRun).cy < smallConfig.Height) :=
  ⟨by decide,
   cursor_boundary_invariant sampleOps smallConfig (by decide) (by decide) (by decide) (by decide)
     sampleRun⟩

/-! ## The keys one by one -/

theorem Update_up {β : Type} (ops : BoardOps β) (m : model β) :
    Update ops m (Msg.KeyMsg "up") =
      { next := clampCursor { m with cy := wrapInt (m.cy - 1) }, cmd := Cmd.nil, hitCall := none } := by
  simp [Update]

theorem Update_down {β : Type} (ops : BoardOps β) (m : model β) :
    Update ops m (Msg.KeyMsg "down") =
      { next := clampCursor { m with cy := wrapInt (m.cy + 1) }, cmd := Cmd.nil, hitCall := none } := by
  simp [Update]

theorem Update_left {β : Type} (ops : BoardOps β) (m : model β) :
    Update ops m (Msg.KeyMsg "left") =
      { next := clampCursor { m with cx := wrapInt (m.cx - 1) }, cmd := Cmd.nil, hitCall := none } := by
  simp [Update]

theorem Update_right {β : Type} (ops : BoardOps β) (m : model β) :
    Update ops m (Msg.KeyMsg "right") =
      { next := clampCursor { m with cx := wrapInt (m.cx + 1) }, cmd := Cmd.nil, hitCall := none } := by
  simp [Update]

theorem Update_space {β : Type} (ops : BoardOps β) (m : model β) :
    Update ops m (Msg.KeyMsg " ") =
      { next := clampCursor { m with board := (ops.Hit m.board m.cx m.cy).2,
                                     points := wrapInt (m.points + (ops.Hit m.board m.cx m.cy).1) }
        cmd := Cmd.nil
        hitCall := some (m.cx, m.cy) } := by
  simp [Update]


theorem Update_up_cursor {β : Type} (ops : BoardOps β) (m : model β)
    (hW : 0 < m.config.Width) (hH : 0 < m.config.Height)
    (hWi : isInt m.config.Width) (hHi : isInt m.config.Height) :
    (Update ops m (Msg.KeyMsg "up")).next.cx = specClamp m.cx 0 (m.config.Width - 1) ∧
    (Update ops m (Msg.KeyMsg "up")).next.cy
      = specClamp (wrapInt (m.cy - 1)) 0 (m.config.Height - 1) := by
  rw [Update_up]
  exact ⟨clampCursor_cx_spec { m with cy := wrapInt (m.cy - 1) } hW hWi,
    clampCursor_cy_spec { m with cy := wrapInt (m.cy - 1) } hH hHi⟩

theorem Update_down_cursor {β : Type} (ops : BoardOps β) (m : model β)
    (hW : 0 < m.config.Width) (hH : 0 < m.config.Height)
    (hWi : isInt m.config.Width) (hHi : isInt m.config.Height) :
    (Update ops m (Msg.KeyMsg "down")).next.cx = specClamp m.cx 0 (m.config.Width - 1) ∧
    (Update ops m (Msg.KeyMsg "down")).next.cy
      = specClamp (wrapInt (m.cy + 1)) 0 (m.config.Height - 1) := by
  rw [Update_down]
  exact ⟨clampCursor_cx_spec { m with cy := wrapInt (m.cy + 1) } hW hWi,
    clampCursor_cy_spec { m with cy := wrapInt (m.cy + 1) } hH hHi⟩

theorem Update_left_cursor {β : Type} (ops : BoardOps β) (m : model β)
    (hW : 0 < m.config.Width) (hH : 0 < m.config.Height)
    (hWi : isInt m.config.Width) (hHi : isInt m.config.Height) :
    (Update ops m (Msg.KeyMsg "left")).next.cx
      = specClamp (wrapInt (m.cx - 1)) 0 (m.config.Width - 1) ∧
    (Update ops m (Msg.KeyMsg "left")).next.cy = specClamp m.cy 0 (m.config.Height - 1) := by
  rw [Update_left]
  exact ⟨clampCursor_cx_spec { m with cx := wrapInt (m.cx - 1) } hW hWi,
    clampCursor_cy_spec { m with cx := wrapInt (m.cx - 1) } hH hHi⟩

theorem Update_right_cursor {β : Type} (ops : BoardOps β) (m : model β)
    (hW : 0 < m.config.Width) (hH : 0 < m.config.Height)
    (hWi : isInt m.config.Width) (hHi : isInt m.config.Height) :
    (Update ops m (Msg.KeyMsg "right")).next.cx
      = specClamp (wrapInt (m.cx + 1)) 0 (m.config.Width - 1) ∧
    (Update ops m (Msg.KeyMsg "right")).next.cy = specClamp m.cy 0 (m.config.Height - 1) := by
  rw [Update_right]
  exact ⟨clampCursor_cx_spec { m with cx := wrapInt (m.cx + 1) } hW hWi,
    clampCursor_cy_spec { m with cx := wrapInt (m.cx + 1) } hH hHi⟩

/-! ## The claims on `Update` -/

/-- Claim C2, cursor movement is a clamp: in a model of Go `int`s with positive
`Width` and `Height`, `Update` on "up", "down", "left" or "right" returns the
cursor `cx = clamp(cx+dx, 0, Width-1)`, `cy = clamp(cy+dy, 0, Height-1)` for the
step `(dx, dy)` of the key, the sums being those of Go (and the integer sums
whenever these are Go `int`s, as they are for every cursor on the board); it
returns no quit command and calls no `Hit`; and a move against an edge leaves
the coordinate, and a coordinate of the other axis that is on the board, as
they were. -/
theorem move_is_clamp {β : Type} (ops : BoardOps β) (m : model β)
    (hW : 0 < m.config.Width) (hH : 0 < m.config.Height)
    (hWi : isInt m.config.Width) (hHi : isInt m.config.Height)
    (hcx : isInt m.cx) (hcy : isInt m.cy) :
    (∀ key dx dy, (key, dx, dy) ∈ moves →
      (Update ops m (Msg.KeyMsg key)).next.cx
          = specClamp (wrapInt (m.cx + dx)) 0 (m.config.Width - 1) ∧
      (Update ops m (Msg.KeyMsg key)).next.cy
          = specClamp (wrapInt (m.cy + dy)) 0 (m.config.Height - 1) ∧
      (isInt (m.cx + dx) → isInt (m.cy + dy) →
        (Update ops m (Msg.KeyMsg key)).next.cx = specClamp (m.cx + dx) 0 (m.config.Width - 1) ∧
        (Update ops m (Msg.KeyMsg key)).next.cy = specClamp (m.cy + dy) 0 (m.config.Height - 1)) ∧
      (Update ops m (Msg.KeyMsg key)).cmd = Cmd.nil ∧
      (Update ops m (Msg.KeyMsg key)).hitCall = none) ∧
    (m.cx = 0 → (Update ops m (Msg.KeyMsg "left")).next.cx = m.cx ∧
      (0 ≤ m.cy → m.cy < m.config.Height → (Update ops m (Msg.KeyMsg "left")).next.cy = m.cy)) ∧
    (m.cy = 0 → (Update ops m (Msg.KeyMsg "up")).next.cy = m.cy ∧
      (0 ≤ m.cx → m.cx < m.config.Width → (Update ops m (Msg.KeyMsg "up")).next.cx = m.cx)) ∧
    (m.cx = m.config.Width - 1 → (Update ops m (Msg.KeyMsg "right")).next.cx = m.cx ∧
      (0 ≤ m.cy → m.cy < m.config.Height → (Update ops m (Msg.KeyMsg "right")).next.cy = m.cy)) ∧
    (m.cy = m.config.Height - 1 → (Update ops m (Msg.KeyMsg "down")).next.cy = m.cy ∧
      (0 ≤ m.cx → m.cx < m.config.Width → (Update ops m (Msg.KeyMsg "down")).next.cx = m.cx)) ∧
    (0 ≤ m.cx → m.cx < m.config.Width → 0 ≤ m.cy → m.cy < m.config.Height →
      ∀ key dx dy, (key, dx, dy) ∈ moves → isInt (m.cx + dx) ∧ isInt (m.cy + dy)) := by
  have h0x : wrapInt (m.cx + 0) = m.cx := by rw [add_zero]; exact wrapInt_of_isInt hcx
  have h0y : wrapInt (m.cy + 0) = m.cy := by rw [add_zero]; exact wrapInt_of_isInt hcy
  have hu := Update_up_cursor ops m hW hH hWi hHi
  have hd := Update_down_cursor ops m hW hH hWi hHi
  have hl := Update_left_cursor ops m hW hH hWi hHi
  have hr := Update_right_cursor ops m hW hH hWi hHi
  refine ⟨?_, ?_, ?_, ?_, ?_, ?_⟩
  · intro key dx dy hmem
    simp only [moves, List.mem_cons, Prod.mk.injEq, List.mem_singleton, List.not_mem_nil,
      or_false] at hmem
    rcases hmem with ⟨rfl, rfl, rfl⟩ | ⟨rfl, rfl, rfl⟩ | ⟨rfl, rfl, rfl⟩ | ⟨rfl, rfl, rfl⟩
    · refine ⟨by rw [h0x]; exact hu.1, hu.2, ?_, by rw [Update_up], by rw [Update_up]⟩
      intro _ h2
      rw [hu.1, hu.2, add_zero, ← sub_eq_add_neg,
        wrapInt_of_isInt (by simpa [sub_eq_add_neg] using h2)]
      exact ⟨rfl, rfl⟩
    · refine ⟨by rw [h0x]; exact hd.1, hd.2, ?_, by rw [Update_down], by rw [Update_down]⟩
      intro _ h2
      rw [hd.1, hd.2, add_zero, wrapInt_of_isInt h2]
      exact ⟨rfl, rfl⟩
    · refine ⟨hl.1, by rw [h0y]; exact hl.2, ?_, by rw [Update_left], by rw [Update_left]⟩
      intro h1 _
      rw [hl.1, hl.2, add_zero, ← sub_eq_add_neg,
        wrapInt_of_isInt (by simpa [sub_eq_add_neg] using h1)]
      exact ⟨rfl, rfl⟩
    · refine ⟨hr.1, by rw [h0y]; exact hr.2, ?_, by rw [Update_right], by rw [Update_right]⟩
      intro h1 _
      rw [hr.1, hr.2, add_zero, wrapInt_of_isInt h1]
      exact ⟨rfl, rfl⟩
  · intro h
    refine ⟨?_, fun h0 h1 => by rw [hl.2]; exact specClamp_id _ _ h0 (by omega)⟩
    rw [hl.1, h]
    unfold specClamp wrapInt
    split_ifs <;> omega
  · intro h
    refine ⟨?_, fun h0 h1 => by rw [hu.1]; exact specClamp_id _ _ h0 (by omega)⟩
    rw [hu.2, h]
    unfold specClamp wrapInt
    split_ifs <;> omega
  · intro h
    refine ⟨?_, fun h0 h1 => by rw [hr.2]; exact specClamp_id _ _ h0 (by omega)⟩
    unfold isInt minInt maxInt at hWi
    rw [hr.1, h]
    unfold specClamp wrapInt
    split_ifs <;> omega
  · intro h
    refine ⟨?_, fun h0 h1 => by rw [hd.1]; exact specClamp_id _ _ h0 (by omega)⟩
    unfold isInt minInt maxInt at hHi
    rw [hd.2, h]
    unfold specClamp wrapInt
    split_ifs <;> omega
  · intro hx0 hx1 hy0 hy1 key dx dy hmem
    simp only [moves, List.mem_cons, Prod.mk.injEq, List.mem_singleton, List.not_mem_nil,
      or_false] at hmem
    unfold isInt minInt maxInt at *
    rcases hmem with ⟨rfl, rfl, rfl⟩ | ⟨rfl, rfl, rfl⟩ | ⟨rfl, rfl, rfl⟩ | ⟨rfl, rfl, rfl⟩ <;>
      omega

/-- The clamp at the start of the 3 by 2 board: "right" steps to the clamp of
`cx + 1`, "left" against the left edge leaves `cx`. -/
theorem move_is_clamp_witness :
    (0 < (initialModel sampleOps smallConfig).config.Width ∧
      0 < (initialModel sampleOps smallConfig).config.Height ∧
      isInt (initialModel sampleOps smallConfig).config.Width ∧
      isInt (initialModel sampleOps smallConfig).config.Height ∧
      isInt (initialModel sampleOps smallConfig).cx ∧
      isInt (initialModel sampleOps smallConfig).cy) ∧
    (Update sampleOps (initialModel sampleOps smallConfig) (Msg.KeyMsg "right")).next.cx
      = specClamp (wrapInt ((initialModel sampleOps smallConfig).cx + 1)) 0
          ((initialModel sampleOps smallConfig).config.Width - 1) ∧
    (Update sampleOps (initialModel sampleOps smallConfig) (Msg.KeyMsg "left")).next.cx
      = (initialModel sampleOps smallConfig).cx :=
  ⟨by decide,
   ((move_is_clamp sampleOps (initialModel sampleOps smallConfig) (by decide) (by decide)
      (by decide) (by decide) (by decide) (by decide)).1 "right" 1 0 (by decide)).1,
   ((move_is_clamp sampleOps (initialModel sampleOps smallConfig) (by decide) (by decide)
      (by decide) (by decide) (by decide) (by decide)).2.1 rfl).1⟩

/-- Claim C3, hit scoring: in a model whose cursor is on the board, `Update` on
the space key calls `board.Hit` at the cursor it was given, returns the points
of before plus the award of that call (the sum of Go, and the integer sum
whenever that is a Go `int`), the board after that call, and the cursor
unchanged. -/
theorem hit_adds_award {β : Type} (ops : BoardOps β) (m : model β)
    (hx0 : 0 ≤ m.cx) (hx1 : m.cx < m.config.Width)
    (hy0 : 0 ≤ m.cy) (hy1 : m.cy < m.config.Height) :
    (Update ops m (Msg.KeyMsg " ")).hitCall = some (m.cx, m.cy) ∧
    (Update ops m (Msg.KeyMsg " ")).next.points
      = wrapInt (m.points + (ops.Hit m.board m.cx m.cy).1) ∧
    (isInt (m.points + (ops.Hit m.board m.cx m.cy).1) →
      (Update ops m (Msg.KeyMsg " ")).next.points = m.points + (ops.Hit m.board m.cx m.cy).1) ∧
    (Update ops m (Msg.KeyMsg " ")).next.cx = m.cx ∧
    (Update ops m (Msg.KeyMsg " ")).next.cy = m.cy ∧
    (Update ops m (Msg.KeyMsg " ")).next.board = (ops.Hit m.board m.cx m.cy).2 ∧
    (Update ops m (Msg.KeyMsg " ")).cmd = Cmd.nil := by
  rw [Update_space]
  have hc := clampCursor_of_inBounds
    { m with board := (ops.Hit m.board m.cx m.cy).2,
             points := wrapInt (m.points + (ops.Hit m.board m.cx m.cy).1) }
    ⟨hx0, hx1, hy0, hy1⟩
  refine ⟨rfl, by simp, ?_, hc.1, hc.2, by simp, rfl⟩
  intro h
  simp [wrapInt_of_isInt h]

/-- A hit at the start of the 3 by 2 board: the award is added to the points
and the cursor stays. -/
theorem hit_adds_award_witness :
    (0 ≤ (initialModel sampleOps smallConfig).cx ∧
      (initialModel sampleOps smallConfig).cx < (initialModel sampleOps smallConfig).config.Width ∧
      0 ≤ (initialModel sampleOps smallConfig).cy ∧
      (initialModel sampleOps smallConfig).cy
        < (initialModel sampleOps smallConfig).config.Height) ∧
    (Update sampleOps (initialModel sampleOps smallConfig) (Msg.KeyMsg " ")).next.points
      = wrapInt ((initialModel sampleOps smallConfig).points
          + (sampleOps.Hit (initialModel sampleOps smallConfig).board
              (initialModel sampleOps smallConfig).cx (initialModel sampleOps smallConfig).cy).1) ∧
    (Update sampleOps (initialModel sampleOps smallConfig) (Msg.KeyMsg " ")).next.cx
      = (initialModel sampleOps smallConfig).cx :=
  ⟨by decide,
   (hit_adds_award sampleOps (initialModel sampleOps smallConfig) (by decide) (by decide)
      (by decide) (by decide)).2.1,
   (hit_adds_award sampleOps (initialModel sampleOps smallConfig) (by decide) (by decide)
      (by decide) (by decide)).2.2.2.1⟩

/-- Claim C10, `Hit` is only invoked on the board: for every configuration whose
`Width` and `Height` are positive (Go `int`s) and every model reached from
`initialModel cfg` by `Update` calls, `Update` on the space key calls
`board.Hit`, and whatever the message the coordinates of a call it makes
satisfy `0 ≤ x < Width` and `0 ≤ y < Height`. -/
theorem hit_called_in_bounds {β : Type} (ops : BoardOps β) (cfg : Config)
    (hW : 0 < cfg.Width) (hH : 0 < cfg.Height) (hWi : isInt cfg.Width) (hHi : isInt cfg.Height)
    (msgs : List Msg) :
    (∃ x y, (Update ops (updates ops (initialModel ops cfg) msgs) (Msg.KeyMsg " ")).hitCall
        = some (x, y)) ∧
    (∀ msg x y, (Update ops (updates ops (initialModel ops cfg) msgs) msg).hitCall = some (x, y) →
      0 ≤ x ∧ x < cfg.Width ∧ 0 ≤ y ∧ y < cfg.Height) := by
  have hb := updates_inBounds ops (initialModel ops cfg) msgs hW hH hWi hHi
    (initialModel_inBounds ops cfg hW hH)
  refine ⟨⟨_, _, by rw [Update_space]⟩, ?_⟩
  intro msg x y h
  obtain ⟨rfl, rfl⟩ := Update_hitCall ops _ msg x y h
  exact hb

/-- The hit after the example run on the 3 by 2 board is on the board. -/
theorem hit_called_in_bounds_witness :
    (0 < smallConfig.Width ∧ 0 < smallConfig.Height ∧ isInt smallConfig.Width ∧
      isInt smallConfig.Height) ∧
    (∀ msg x y,
      (Update sampleOps (updates sampleOps (initialModel sampleOps smallConfig) sampleRun)
        msg).hitCall = some (x, y) →
      0 ≤ x ∧ x < smallConfig.Width ∧ 0 ≤ y ∧ y < smallConfig.Height) :=
  ⟨by decide,
   (hit_called_in_bounds sampleOps smallConfig (by decide) (by decide) (by decide) (by decide)
      sampleRun).2⟩

/-! ## The claims on the published model -/

/-- Claim C5, read after publish: after any sequence of `setWebModel` calls,
`getWebModel` returns the model passed to the last of them, whatever was
published before. -/
theorem read_after_publish {β : Type} (g : Globals β) (ms : List (model β)) (m : model β) :
    getWebModel (setWebModel (publishAll g ms) m) = m ∧
    getWebModel (publishAll g (ms ++ [m])) = m := by
  constructor
  · rfl
  · simp [publishAll, List.foldl_append, setWebModel, getWebModel]

/-- Claim C6, evaluated: `Update` does not publish.  From the default
configuration, after `Init` and one `Update` on "right" the model of the loop
has `cx = 1` while `getWebModel` still returns `cx = 0`; and whatever the
messages, `getWebModel` returns the model that was given to `Init`. -/
theorem published_model_is_stale {β : Type} (ops : BoardOps β) :
    (Start ops (initGlobals ops) (initialModel ops defaultConfig) [Msg.KeyMsg "right"]).2.cx = 1 ∧
    (getWebModel
      (Start ops (initGlobals ops) (initialModel ops defaultConfig) [Msg.KeyMsg "right"]).1).cx
        = 0 ∧
    (∀ (g : Globals β) (m : model β) (msgs : List Msg),
      getWebModel (Start ops g m msgs).1 = m) := by
  refine ⟨?_, rfl, fun _ _ _ => rfl⟩
  simp only [Start, updates, List.foldl, Update_right]
  simp [clampCursor_cx, initialModel, defaultConfig, wrapInt]

/-- Claim C7 as stated fails: in a model with `gameOver = true`, `Update` on
"right" moves the cursor from 0 to 1 and `Update` on the space key raises the
points from 0 to 1, each returning `nil` as after any other move or hit. -/
theorem gameOver_not_checked :
    ({ initialModel sampleOps smallConfig with gameOver := true } : model Board).gameOver = true ∧
    ({ initialModel sampleOps smallConfig with gameOver := true } : model Board).cx = 0 ∧
    ({ initialModel sampleOps smallConfig with gameOver := true } : model Board).points = 0 ∧
    (Update sampleOps { initialModel sampleOps smallConfig with gameOver := true }
      (Msg.KeyMsg "right")).next.cx = 1 ∧
    (Update sampleOps { initialModel sampleOps smallConfig with gameOver := true }
      (Msg.KeyMsg "right")).cmd = Cmd.nil ∧
    (Update sampleOps { initialModel sampleOps smallConfig with gameOver := true }
      (Msg.KeyMsg " ")).next.points = 1 ∧
    (Update sampleOps { initialModel sampleOps smallConfig with gameOver := true }
      (Msg.KeyMsg " ")).cmd = Cmd.nil := by
  decide

theorem clampCursor_gameOver_set {β : Type} (s : model β) (b : Bool) :
    clampCursor { s with gameOver := b } = { clampCursor s with gameOver := b } := by
  unfold clampCursor
  dsimp only
  split_ifs <;> rfl

/-- Claim C7, amended: `Update` neither reads nor writes `gameOver`.  On a model
with the flag set to `b` it returns what it returns without it, with the flag
set to `b`: the same cursor, points and board, the same command, the same call
of `Hit`; it returns the flag it was given; and every model reached from
`initialModel` has `gameOver = false`. -/
theorem Update_ignores_gameOver {β : Type} (ops : BoardOps β) (m : model β) (msg : Msg)
    (b : Bool) :
    (Update ops { m with gameOver := b } msg).next
      = { (Update ops m msg).next with gameOver := b } ∧
    (Update ops { m with gameOver := b } msg).cmd = (Update ops m msg).cmd ∧
    (Update ops { m with gameOver := b } msg).hitCall = (Update ops m msg).hitCall ∧
    (Update ops m msg).next.gameOver = m.gameOver ∧
    (∀ cfg msgs, (updates ops (initialModel ops cfg) msgs).gameOver = false) := by
  refine ⟨?_, ?_, ?_, Update_gameOver ops m msg, ?_⟩
  · cases msg with
    | KeyMsg s =>
      simp only [Update]
      split_ifs
      · trivial
      all_goals (dsimp only; rw [← clampCursor_gameOver_set])
    | MouseMsg t =>
      simp only [Update]
      rw [← clampCursor_gameOver_set]
    | other =>
      simp only [Update]
      rw [← clampCursor_gameOver_set]
  · cases msg with
    | KeyMsg s =>
      simp only [Update]
      split_ifs <;> trivial
    | MouseMsg t => simp only [Update]
    | other => simp only [Update]
  · cases msg with
    | KeyMsg s =>
      simp only [Update]
      split_ifs <;> trivial
    | MouseMsg t => simp only [Update]
    | other => simp only [Update]
  · intro cfg msgs
    rw [updates_gameOver]
    simp only [initialModel]

/-- Claim C8 as stated fails: what `getWebModel` returns before any
`setWebModel` is what it returns after some model has been published, the
zero-valued one. -/
theorem unpublished_read_is_zero_model :
    ¬ (∀ m : model Board,
        getWebModel (initGlobals sampleOps)
          ≠ getWebModel (setWebModel (initGlobals sampleOps) m)) := by
  intro h
  exact h (zeroModel sampleOps) rfl

/-- Claim C8, amended: before any `setWebModel` call `getWebModel` returns the
zero-valued model, which is also what it returns once a zero-valued model has
been published. -/
theorem read_before_publish {β : Type} (ops : BoardOps β) :
    getWebModel (initGlobals ops) = zeroModel ops ∧
    (∀ g : Globals β, getWebModel (setWebModel g (zeroModel ops))
        = getWebModel (initGlobals ops)) :=
  ⟨rfl, fun _ => rfl⟩

/-! ## The score -/

theorem Update_points {β : Type} (ops : BoardOps β) (m : model β) (msg : Msg) :
    (Update ops m msg).next.points =
      if msg = Msg.KeyMsg " " then wrapInt (m.points + (ops.Hit m.board m.cx m.cy).1)
      else m.points := by
  cases msg with
  | KeyMsg s =>
    by_cases hs : s = " "
    · subst hs
      rw [Update_space]
      simp
    · have hne : Msg.KeyMsg s ≠ Msg.KeyMsg " " := by
        intro h
        exact hs (Msg.KeyMsg.inj h)
      rw [if_neg hne]
      simp only [Update]
      split_ifs <;> simp
  | MouseMsg t => simp [Update]
  | other => simp [Update]

theorem updates_cons {β : Type} (ops : BoardOps β) (m : model β) (msg : Msg) (msgs : List Msg) :
    updates ops m (msg :: msgs) = updates ops (Update ops m msg).next msgs := rfl

/-- One call of `Update` whose award, if it hits, is non-negative and fits:
the points do not decrease. -/
theorem Update_points_le {β : Type} (ops : BoardOps β) (m : model β) (msg : Msg)
    (h : msg = Msg.KeyMsg " " →
      0 ≤ (ops.Hit m.board m.cx m.cy).1 ∧ isInt (m.points + (ops.Hit m.board m.cx m.cy).1)) :
    m.points ≤ (Update ops m msg).next.points := by
  rw [Update_points]
  split_ifs with hm
  · obtain ⟨h0, hi⟩ := h hm
    rw [wrapInt_of_isInt hi]
    omega
  · exact le_refl _

theorem awardsFit_cons {β : Type} (ops : BoardOps β) (m : model β) (msg : Msg)
    (rest : List Msg) (h : awardsFit ops m (msg :: rest) = true) :
    (msg = Msg.KeyMsg " " →
      0 ≤ (ops.Hit m.board m.cx m.cy).1 ∧ isInt (m.points + (ops.Hit m.board m.cx m.cy).1)) ∧
    awardsFit ops (Update ops m msg).next rest = true := by
  simp only [awardsFit, Bool.and_eq_true] at h
  refine ⟨?_, h.2⟩
  intro hm
  have h1 := h.1
  rw [if_pos hm] at h1
  simp only [Bool.and_eq_true, decide_eq_true_eq] at h1
  exact h1

/-- Along a run whose awards are non-negative and fit, from a model with
non-negative points: the points are non-negative after every part of the run,
and no call of `Update` in it decreases them. -/
theorem awardsFit_run {β : Type} (ops : BoardOps β) (msgs : List Msg) :
    ∀ m : model β, 0 ≤ m.points → awardsFit ops m msgs = true →
      (∀ pre suf, msgs = pre ++ suf → 0 ≤ (updates ops m pre).points) ∧
      (∀ pre msg suf, msgs = pre ++ msg :: suf →
        (updates ops m pre).points ≤ (Update ops (updates ops m pre) msg).next.points) := by
  induction msgs with
  | nil =>
    intro m h0 _
    constructor
    · intro pre suf h
      have hp : pre = [] := (List.append_eq_nil.mp h.symm).1
      subst hp
      exact h0
    · intro pre msg suf h
      exact absurd h.symm (by simp)
  | cons x rest ih =>
    intro m h0 hfit
    obtain ⟨hx, hrest⟩ := awardsFit_cons ops m x rest hfit
    have hstep := Update_points_le ops m x hx
    obtain ⟨ih1, ih2⟩ := ih (Update ops m x).next (le_trans h0 hstep) hrest
    constructor
    · intro pre suf h
      cases pre with
      | nil => exact h0
      | cons y pre =>
        simp only [List.cons_append, List.cons.injEq] at h
        obtain ⟨rfl, h⟩ := h
        rw [updates_cons]
        exact ih1 pre suf h
    · intro pre msg suf h
      cases pre with
      | nil =>
        simp only [List.nil_append, List.cons.injEq] at h
        obtain ⟨rfl, _⟩ := h
        exact hstep
      | cons y pre =>
        simp only [List.cons_append, List.cons.injEq] at h
        obtain ⟨rfl, h⟩ := h
        rw [updates_cons]
        exact ih2 pre msg suf h

/-- Claim C4 as stated fails.  On the 3 by 2 board whose tiles are worth the
largest Go `int`, a hit, a move to the right and a second hit take the points
from 0 to 9223372036854775807 and then down to -2; on the board whose tiles are
worth -1, one hit takes the points from 0 to -1. -/
theorem score_can_decrease :
    (updates (specOps overflowPolicy) (initialModel (specOps overflowPolicy) smallConfig)
      [Msg.KeyMsg " ", Msg.KeyMsg "right"]).points = 9223372036854775807 ∧
    (Update (specOps overflowPolicy)
      (updates (specOps overflowPolicy) (initialModel (specOps overflowPolicy) smallConfig)
        [Msg.KeyMsg " ", Msg.KeyMsg "right"]) (Msg.KeyMsg " ")).next.points = -2 ∧
    (initialModel (specOps negativePolicy) smallConfig).points = 0 ∧
    (Update (specOps negativePolicy) (initialModel (specOps negativePolicy) smallConfig)
      (Msg.KeyMsg " ")).next.points = -1 := by
  decide

/-- Claim C4, amended: the points start at 0 and a call of `Update` changes them
only on the space key, to the Go sum of the points and the award of `Board.Hit`
at the cursor.  Along every run from `initialModel cfg` in which each such
award is non-negative and its sum with the points is a Go `int`, the points
are non-negative in every model reached and no call of `Update` decreases
them. -/
theorem score_under_fitting_awards {β : Type} (ops : BoardOps β) (cfg : Config)
    (msgs : List Msg) (hfit : awardsFit ops (initialModel ops cfg) msgs = true) :
    (initialModel ops cfg).points = 0 ∧
    (∀ (m : model β) (msg : Msg),
      (Update ops m msg).next.points = m.points ∨
      (msg = Msg.KeyMsg " " ∧
        (Update ops m msg).next.points = wrapInt (m.points + (ops.Hit m.board m.cx m.cy).1))) ∧
    (∀ pre suf, msgs = pre ++ suf → 0 ≤ (updates ops (initialModel ops cfg) pre).points) ∧
    (∀ pre msg suf, msgs = pre ++ msg :: suf →
      (updates ops (initialModel ops cfg) pre).points
        ≤ (Update ops (updates ops (initialModel ops cfg) pre) msg).next.points) := by
  have hrun := awardsFit_run ops msgs (initialModel ops cfg) (le_refl _) hfit
  refine ⟨rfl, ?_, hrun.1, hrun.2⟩
  intro m msg
  rw [Update_points]
  by_cases hm : msg = Msg.KeyMsg " "
  · rw [if_pos hm]
    exact Or.inr ⟨hm, rfl⟩
  · rw [if_neg hm]
    exact Or.inl rfl

set_option maxRecDepth 8000 in
/-- The example run on the 3 by 2 board of the example policy has awards that
fit; the points are non-negative at its end and its last hit does not decrease
them. -/
theorem score_under_fitting_awards_witness :
    awardsFit sampleOps (initialModel sampleOps smallConfig) sampleRun = true ∧
    0 ≤ (updates sampleOps (initialModel sampleOps smallConfig) sampleRun).points :=
  ⟨by decide,
   (score_under_fitting_awards sampleOps smallConfig sampleRun (by decide)).2.2.1
     sampleRun [] (by simp)⟩

end S4m3
